import Mathlib

/-!
Verification of the weekly trend/momentum/concentration analytics engine
(`src/weekly.py`) of the ai-intel-briefing repository.

We shallowly embed the engine in Lean:
* JSON item records become the `Item` structure (items that are not JSON
  objects are skipped by every tally in the Python code, so a day's item
  list is modelled as the list of its object-shaped items);
* Python dicts (which preserve insertion order) become association lists
  `List (String × α)` with first-match lookup and in-place update;
* Python floats become exact rationals `ℚ`.  The recency weight vector
  `0.5^(age/halflife)` contains irrational values, so every definition that
  consumes weights is parametrised by an arbitrary rational weight list
  `ws`; no claim below depends on the concrete weight values.
-/

unseal Rat.add Rat.sub Rat.mul Rat.inv Rat.ofScientific

/-- One content item of a daily snapshot (`it` in `weekly.py`), keeping the
fields the analytics engine reads: `primary` category, `source`, and the
`entities` list.  Absent JSON fields are `none`. -/
structure Item where
  primary : Option String := none
  source : Option String := none
  entities : List String := []
deriving Repr, DecidableEq

/-- Python string truthiness: `x or d` on an optional string returns `d`
when the field is absent (`None`) or the empty string. -/
def pyOr (x : Option String) (d : String) : String :=
  match x with
  | none => d
  | some s => if s = "" then d else s

/-- Embedding of Python `str.strip()`: drop whitespace from both ends. -/
def pyStrip (s : String) : String :=
  String.mk (((s.toList.dropWhile Char.isWhitespace).reverse.dropWhile
      Char.isWhitespace).reverse)

/-- `(it.get("primary") or "misc").strip()` — the category key of an item
(`weekly.py` line 194). -/
def catKey (it : Item) : String :=
  pyStrip (pyOr it.primary "misc")

/-- `(it.get("source") or "unknown").strip() or "unknown"` — the source key
of an item (`weekly.py` line 197). -/
def srcKey (it : Item) : String :=
  let s := pyStrip (pyOr it.source "unknown")
  if s = "" then "unknown" else s

/-- The entity-key occurrences an item contributes (`weekly.py` lines
200–203): every entry of `entities` that strips to a non-empty string,
stripped, kept with multiplicity in list order. -/
def entityOccs (it : Item) : List String :=
  (it.entities.filter (fun e => pyStrip e ≠ "")).map pyStrip

/-- Association lists standing for Python dicts: insertion order is the
list order, lookup is first match. -/
abbrev Dict (α : Type) := List (String × α)

/-- Dict lookup `m[k]` (first match; keys are unique in every dict we build). -/
def alookup {α : Type} : Dict α → String → Option α
  | [], _ => none
  | (k', v) :: rest, k => if k' = k then some v else alookup rest k

/-- Dict assignment `m[k] = v`: update in place if the key is present,
otherwise append, preserving insertion order. -/
def aset {α : Type} : Dict α → String → α → Dict α
  | [], k, v => [(k, v)]
  | (k', v') :: rest, k, v =>
      if k' = k then (k, v) :: rest else (k', v') :: aset rest k v

/-- `local[k] = local.get(k, 0) + 1`. -/
def bump (m : Dict Nat) (k : String) : Dict Nat :=
  aset m k ((alookup m k).getD 0 + 1)

/-- The per-day tally dict: `occs` extracts each item's key occurrences
(`[catKey it]`, `[srcKey it]`, or `entityOccs it`), and each occurrence
bumps its key's count, exactly as the item loop at `weekly.py` 190–203. -/
def localTally (occs : Item → List String) (items : List Item) : Dict Nat :=
  items.foldl (fun m it => (occs it).foldl bump m) []

/-- `series.setdefault(k, [0]*n)[di] = v` (`weekly.py` lines 205–210). -/
def setDay (n di : Nat) (m : Dict (List Nat)) (k : String) (v : Nat) :
    Dict (List Nat) :=
  match alookup m k with
  | some s => aset m k (s.set di v)
  | none => m ++ [(k, (List.replicate n 0).set di v)]

/-- Fold one day's local tally into the accumulated series dict. -/
def buildStep (n di : Nat) (m : Dict (List Nat)) (loc : Dict Nat) :
    Dict (List Nat) :=
  loc.foldl (fun m p => setDay n di m p.1 p.2) m

/-- The `for di, snap in enumerate(snapshots)` loop of `main`
(`weekly.py` 182–210), specialised to one key space via `occs`. -/
def buildSeriesAux (occs : Item → List String) (n : Nat) :
    Nat → Dict (List Nat) → List (List Item) → Dict (List Nat)
  | _, m, [] => m
  | di, m, items :: rest =>
      buildSeriesAux occs n (di + 1) (buildStep n di m (localTally occs items)) rest

/-- The count-series dict for one key space over the whole window. -/
def buildSeries (occs : Item → List String) (snaps : List (List Item)) :
    Dict (List Nat) :=
  buildSeriesAux occs snaps.length 0 [] snaps

/-- `ent_series` of `main`. -/
def entSeries (snaps : List (List Item)) : Dict (List Nat) :=
  buildSeries entityOccs snaps

/-- `cat_series` of `main`. -/
def catSeries (snaps : List (List Item)) : Dict (List Nat) :=
  buildSeries (fun it => [catKey it]) snaps

/-- `source_series` of `main`. -/
def sourceSeries (snaps : List (List Item)) : Dict (List Nat) :=
  buildSeries (fun it => [srcKey it]) snaps

/-- Number of occurrences of key `k` contributed by one day's items in the
key space described by `occs` (with multiplicity, in scan order). -/
def dayCount (occs : Item → List String) (items : List Item) (k : String) : Nat :=
  ((items.map occs).flatten).count k

example : entSeries [[{ entities := ["A", "A"] }]] = [("A", [2])] := by decide
example : catSeries [[{ primary := some " " }]] = [("", [1])] := by decide
example : entSeries [[{ entities := [" b ", "a"] }], [{ entities := ["a"] }]] =
    [("b", [1, 0]), ("a", [1, 1])] := by decide

/-! ### Metric engine (`weekly.py` lines 48–104) -/

/-- Ordinary least-squares slope (`slope`, `weekly.py` 48–57), in exact
rational arithmetic; `den or 1.0` becomes an explicit zero test. -/
def olsSlope (xs : List ℚ) : ℚ :=
  let n := xs.length
  if n < 2 then 0
  else
    let x : List ℚ := (List.range n).map (fun i => (i : ℚ))
    let mx := x.sum / (n : ℚ)
    let my := xs.sum / (n : ℚ)
    let num := ((x.zip xs).map (fun p => (p.1 - mx) * (p.2 - my))).sum
    let den := (x.map (fun xi => (xi - mx) ^ 2)).sum
    num / (if den = 0 then 1 else den)

/-- Helper for `streak`: length of the positive prefix. -/
def streakAux : List Nat → Nat
  | [] => 0
  | v :: rest => if v > 0 then streakAux rest + 1 else 0

/-- `streak` (`weekly.py` 60–67): trailing run of days with positive count. -/
def streak (xs : List Nat) : Nat :=
  streakAux xs.reverse

/-- `weighted_total` (`weekly.py` 93–94): `sum(v*w for v, w in zip(series, weights))`. -/
def weightedTotal (series : List Nat) (ws : List ℚ) : ℚ :=
  ((series.zip ws).map (fun p => (p.1 : ℚ) * p.2)).sum

/-- `delta_recent_vs_early` (`weekly.py` 97–104).  In `main` the weight list
always has the same length as the series, so the `getD` defaults are never
taken on the code's inputs. -/
def deltaRecentVsEarly (series : List ℚ) (ws : List ℚ) : ℚ :=
  let n := series.length
  if n < 4 then 0
  else
    let k := min 3 (n / 2)
    let early := ((List.range k).map (fun i => series.getD i 0 * ws.getD i 0)).sum
    let recent :=
      ((List.range k).map (fun i => series.getD (n - k + i) 0 * ws.getD (n - k + i) 0)).sum
    recent - early

/-- One entity/metric row (the dict built at `weekly.py` 218–227). -/
structure Row where
  name : String
  series : List Nat
  total : Nat
  streak : Nat
  slope : ℚ
  w_total : ℚ
  delta : ℚ
  last : Nat
deriving Repr, DecidableEq

/-- Build one entity row (`weekly.py` 215–227). -/
def mkRow (ws : List ℚ) (name : String) (series : List Nat) : Row :=
  { name := name
    series := series
    total := series.sum
    streak := streak series
    slope := olsSlope (series.map (fun x => (x : ℚ)))
    w_total := weightedTotal series ws
    delta := deltaRecentVsEarly (series.map (fun x => (x : ℚ))) ws
    last := series.getLastD 0 }

/-! ### Stable descending sorts

Python's `list.sort(key=f, reverse=True)` is a *stable* descending sort.  A
stable sort with respect to the total preorder `f b ≤lex f a` is unique
(every element ends up ordered by `(key, original position)`), so we model
it by `List.insertionSort`, which Mathlib proves stable and which reduces
by `rfl`/`decide` on concrete inputs. -/

/-- Lexicographic `≤` on pairs of rationals (Python tuple comparison). -/
def lexLe2 (x y : ℚ × ℚ) : Prop :=
  x.1 < y.1 ∨ (x.1 = y.1 ∧ x.2 ≤ y.2)

/-- Lexicographic `≤` on triples of rationals. -/
def lexLe3 (x y : ℚ × ℚ × ℚ) : Prop :=
  x.1 < y.1 ∨ (x.1 = y.1 ∧ lexLe2 x.2 y.2)

/-- Lexicographic `≤` on quadruples of rationals. -/
def lexLe4 (x y : ℚ × ℚ × ℚ × ℚ) : Prop :=
  x.1 < y.1 ∨ (x.1 = y.1 ∧ lexLe3 x.2 y.2)

instance (x y : ℚ × ℚ) : Decidable (lexLe2 x y) :=
  inferInstanceAs (Decidable (_ ∨ _))

instance (x y : ℚ × ℚ × ℚ) : Decidable (lexLe3 x y) :=
  inferInstanceAs (Decidable (_ ∨ _))

instance (x y : ℚ × ℚ × ℚ × ℚ) : Decidable (lexLe4 x y) :=
  inferInstanceAs (Decidable (_ ∨ _))

/-- `a` may precede `b` in a descending sort by the 4-component key `f`. -/
def descRel4 {α : Type} (f : α → ℚ × ℚ × ℚ × ℚ) (a b : α) : Prop :=
  lexLe4 (f b) (f a)

/-- `a` may precede `b` in a descending sort by the 3-component key `f`. -/
def descRel3 {α : Type} (f : α → ℚ × ℚ × ℚ) (a b : α) : Prop :=
  lexLe3 (f b) (f a)

instance {α : Type} (f : α → ℚ × ℚ × ℚ × ℚ) : DecidableRel (descRel4 f) :=
  fun _ _ => inferInstanceAs (Decidable (lexLe4 _ _))

instance {α : Type} (f : α → ℚ × ℚ × ℚ) : DecidableRel (descRel3 f) :=
  fun _ _ => inferInstanceAs (Decidable (lexLe3 _ _))

/-- `rows.sort(key=f, reverse=True)` for a 4-component key. -/
def pySort4 {α : Type} (f : α → ℚ × ℚ × ℚ × ℚ) (l : List α) : List α :=
  List.insertionSort (descRel4 f) l

/-- `rows.sort(key=f, reverse=True)` for a 3-component key. -/
def pySort3 {α : Type} (f : α → ℚ × ℚ × ℚ) (l : List α) : List α :=
  List.insertionSort (descRel3 f) l

/-- Entity ranking key (`weekly.py` 230): `(w_total, delta, streak, total)`. -/
def entRankKey (r : Row) : ℚ × ℚ × ℚ × ℚ :=
  (r.w_total, r.delta, (r.streak : ℚ), (r.total : ℚ))

/-- `ent_rows` before sorting, in dict insertion order (`weekly.py` 213–227). -/
def entRows (ws : List ℚ) (snaps : List (List Item)) : List Row :=
  (entSeries snaps).map (fun p => mkRow ws p.1 p.2)

/-- The momentum-ranked entity rows (`weekly.py` 230). -/
def rankEnt (ws : List ℚ) (snaps : List (List Item)) : List Row :=
  pySort4 entRankKey (entRows ws snaps)

/-! ### Category and source rows (`weekly.py` 232–275) -/

/-- Python's `int(round(x))` on a non-negative value: round half to even. -/
def pyRound (q : ℚ) : ℤ :=
  let f := ⌊q⌋
  let frac := q - (f : ℚ)
  if frac < 1 / 2 then f
  else if 1 / 2 < frac then f + 1
  else if f % 2 = 0 then f else f + 1

/-- Per-day shares of a category (`weekly.py` 240–244):
`v / (total_items_per_day[i] or 1)`. -/
def sharesOf (totPerDay : List Nat) (series : List Nat) : List ℚ :=
  series.enum.map (fun p =>
    let d := totPerDay.getD p.1 0
    (p.2 : ℚ) / (if d = 0 then 1 else (d : ℚ)))

/-- One category row (the dict built at `weekly.py` 246–256). -/
structure CatRow where
  name : String
  series : List Nat
  share : List ℚ
  total : Nat
  streak : Nat
  slope : ℚ
  share_slope : ℚ
  w_total : ℚ
  delta_share : ℚ
deriving Repr, DecidableEq

/-- Build one category row (`weekly.py` 237–256). -/
def mkCatRow (ws : List ℚ) (totPerDay : List Nat) (name : String)
    (series : List Nat) : CatRow :=
  let shares := sharesOf totPerDay series
  { name := name
    series := series
    share := shares
    total := series.sum
    streak := streak series
    slope := olsSlope (series.map (fun x => (x : ℚ)))
    share_slope := olsSlope shares
    w_total := weightedTotal series ws
    delta_share :=
      deltaRecentVsEarly (shares.map (fun s => ((pyRound (s * 1000) : ℤ) : ℚ))) ws }

/-- Category ranking key (`weekly.py` 259):
`(share_slope, w_total, total, streak)`. -/
def catRankKey (r : CatRow) : ℚ × ℚ × ℚ × ℚ :=
  (r.share_slope, r.w_total, (r.total : ℚ), (r.streak : ℚ))

/-- `cat_rows` before sorting, in dict insertion order. -/
def catRows (ws : List ℚ) (snaps : List (List Item)) : List CatRow :=
  (catSeries snaps).map (fun p => mkCatRow ws (snaps.map List.length) p.1 p.2)

/-- The ranked category rows (`weekly.py` 259). -/
def rankCat (ws : List ℚ) (snaps : List (List Item)) : List CatRow :=
  pySort4 catRankKey (catRows ws snaps)

/-- One source row (the dict built at `weekly.py` 267–274). -/
structure SrcRow where
  name : String
  series : List Nat
  total : Nat
  streak : Nat
  w_total : ℚ
  delta : ℚ
deriving Repr, DecidableEq

/-- Build one source row (`weekly.py` 264–274). -/
def mkSrcRow (ws : List ℚ) (name : String) (series : List Nat) : SrcRow :=
  { name := name
    series := series
    total := series.sum
    streak := streak series
    w_total := weightedTotal series ws
    delta := deltaRecentVsEarly (series.map (fun x => (x : ℚ))) ws }

/-- Source ranking key (`weekly.py` 275): `(w_total, total, streak)`. -/
def srcRankKey (r : SrcRow) : ℚ × ℚ × ℚ :=
  (r.w_total, (r.total : ℚ), (r.streak : ℚ))

/-- `source_rows` before sorting, in dict insertion order. -/
def srcRows (ws : List ℚ) (snaps : List (List Item)) : List SrcRow :=
  (sourceSeries snaps).map (fun p => mkSrcRow ws p.1 p.2)

/-- The ranked source rows (`weekly.py` 275). -/
def rankSrc (ws : List ℚ) (snaps : List (List Item)) : List SrcRow :=
  pySort3 srcRankKey (srcRows ws snaps)

/-! ### Concentration analyzer (`weekly.py` 107–119) -/

/-- `hhi_from_counts` (`weekly.py` 107–111). -/
def hhi_from_counts (counts : Dict ℚ) : ℚ :=
  let total := (counts.map Prod.snd).sum
  if total ≤ 0 then 0
  else ((counts.map Prod.snd).map (fun v => (v / total) ^ 2)).sum

/-- `top_share` (`weekly.py` 114–119): `sorted(values, reverse=True)[:topn]`
summed, over the total.  The default argument is `topn = 3`. -/
def top_share (counts : Dict ℚ) (topn : Nat) : ℚ :=
  let total := (counts.map Prod.snd).sum
  if total ≤ 0 then 0
  else (((counts.map Prod.snd).insertionSort (fun a b => b ≤ a)).take topn).sum / total

/-! ### Anomaly detector (`weekly.py` 307–328) -/

/-- New-entrant test (`weekly.py` 308–312): with `new_k = min(3, n)`, zero
presence on the first `n - new_k` days and positive presence on the last
`new_k` days.  (`s[-new_k:]` is the last `new_k` elements; in `main` the
series length equals `n ≥ 1`, so `new_k ≥ 1` and Python's `s[-0:]` corner
never arises.) -/
def newEntQual (n : Nat) (s : List Nat) : Bool :=
  (s.take (n - min 3 n)).sum == 0 && decide (0 < (s.drop (s.length - min 3 n)).sum)

/-- New-entrant ranking key (`weekly.py` 314): `(w_total, last, delta)`. -/
def newEntKey (r : Row) : ℚ × ℚ × ℚ :=
  (r.w_total, (r.last : ℚ), r.delta)

/-- The new-entrant list (`weekly.py` 307–315): filter the ranked entity
rows, re-sort by `(w_total, last, delta)` descending, cap at 8. -/
def newEntrantList (ws : List ℚ) (snaps : List (List Item)) : List Row :=
  (pySort3 newEntKey
    ((rankEnt ws snaps).filter (fun r => newEntQual snaps.length r.series))).take 8

/-- Breakout test (`weekly.py` 319–325): non-empty series, last day `≥ 2`,
and `sum(s[:-1]) / max(1, len(s)-1) ≤ 0.5`. -/
def breakoutQual (s : List Nat) : Bool :=
  !s.isEmpty && decide (2 ≤ s.getLastD 0) &&
    decide ((s.dropLast.sum : ℚ) / ((max 1 (s.length - 1) : Nat) : ℚ) ≤ 1 / 2)

/-- Breakout ranking key (`weekly.py` 327): `(last, w_total, delta)`. -/
def breakoutKey (r : Row) : ℚ × ℚ × ℚ :=
  ((r.last : ℚ), r.w_total, r.delta)

/-- The breakout list (`weekly.py` 317–328). -/
def breakoutList (ws : List ℚ) (snaps : List (List Item)) : List Row :=
  (pySort3 breakoutKey
    ((rankEnt ws snaps).filter (fun r => breakoutQual r.series))).take 8

/-! ### The aggregate result (`main`, `weekly.py` 164–328) -/

/-- The structured result `main` computes for the renderer.  When no
snapshot files are found (`weekly.py` 165–169) the code writes a fixed
"No data." page and returns before building any series, which we model as
the `noData` report with every ranked list empty; `main` raises on no path
in that branch. -/
structure Report where
  noData : Bool
  entRanked : List Row
  catRanked : List CatRow
  srcRanked : List SrcRow
  newEntrants : List Row
  breakouts : List Row
deriving Repr

/-- The analytics pipeline of `main` as a total function of the loaded
window (and of the recency weight vector `ws`, which the code derives from
`n` and the half-life). -/
def runWeekly (ws : List ℚ) (snaps : List (List Item)) : Report :=
  if snaps.isEmpty then
    { noData := true, entRanked := [], catRanked := [], srcRanked := []
      newEntrants := [], breakouts := [] }
  else
    { noData := false
      entRanked := rankEnt ws snaps
      catRanked := rankCat ws snaps
      srcRanked := rankSrc ws snaps
      newEntrants := newEntrantList ws snaps
      breakouts := breakoutList ws snaps }

example : (rankEnt [1] [[{ entities := ["b", "a"] }]]).map Row.name = ["b", "a"] := by
  decide
example : breakoutQual [1, 0, 2] = true := by decide
example : breakoutQual [1, 1, 1, 0, 0, 2] = false := by decide
example : newEntQual 5 [0, 0, 0, 0, 2] = true := by decide
example : newEntQual 5 [0, 1, 0, 0, 2] = false := by decide

/-! ### Dictionary lemmas -/

theorem alookup_aset {α : Type} (m : Dict α) (k k' : String) (v : α) :
    alookup (aset m k v) k' = if k = k' then some v else alookup m k' := by
  induction m with
  | nil => by_cases h : k = k' <;> simp [aset, alookup, h]
  | cons p rest ih =>
      obtain ⟨k₀, v₀⟩ := p
      by_cases h₀ : k₀ = k
      · subst h₀
        by_cases h : k₀ = k' <;> simp [aset, alookup, h]
      · by_cases h₁ : k₀ = k'
        · subst h₁
          have hkk : ¬(k = k₀) := fun hh => h₀ hh.symm
          simp [aset, alookup, h₀, hkk]
        · simp [aset, alookup, h₀, h₁, ih]

/-- Keys of a dict. -/
def dkeys {α : Type} (m : Dict α) : List String := m.map Prod.fst

theorem dkeys_cons {α : Type} (k₀ : String) (v₀ : α) (rest : Dict α) :
    dkeys ((k₀, v₀) :: rest) = k₀ :: dkeys rest := rfl

theorem alookup_eq_none_iff {α : Type} (m : Dict α) (k : String) :
    alookup m k = none ↔ k ∉ dkeys m := by
  induction m with
  | nil => simp [alookup, dkeys]
  | cons p rest ih =>
      obtain ⟨k₀, v₀⟩ := p
      by_cases h : k₀ = k
      · subst h
        simp [alookup, dkeys_cons]
      · simp [alookup, dkeys_cons, h, ih, Ne.symm h]

theorem dkeys_aset {α : Type} (m : Dict α) (k : String) (v : α) :
    dkeys (aset m k v) = if k ∈ dkeys m then dkeys m else dkeys m ++ [k] := by
  induction m with
  | nil => simp [aset, dkeys]
  | cons p rest ih =>
      obtain ⟨k₀, v₀⟩ := p
      by_cases h : k₀ = k
      · subst h
        simp [aset, dkeys_cons]
      · have hks : ¬(k = k₀) := fun hh => h hh.symm
        by_cases hmem : k ∈ dkeys rest
        · rw [show aset ((k₀, v₀) :: rest) k v = (k₀, v₀) :: aset rest k v by
            simp [aset, h]]
          rw [dkeys_cons, dkeys_cons, ih]
          simp [hmem, hks]
        · rw [show aset ((k₀, v₀) :: rest) k v = (k₀, v₀) :: aset rest k v by
            simp [aset, h]]
          rw [dkeys_cons, dkeys_cons, ih]
          simp [hmem, hks]

theorem nodup_dkeys_aset {α : Type} (m : Dict α) (k : String) (v : α)
    (h : (dkeys m).Nodup) : (dkeys (aset m k v)).Nodup := by
  rw [dkeys_aset]
  by_cases hmem : k ∈ dkeys m
  · simpa [hmem] using h
  · simp only [hmem, if_false]
    simpa [List.nodup_append, hmem] using h

theorem alookup_append_some {α : Type} {m₁ : Dict α} {k : String} {v : α}
    (m₂ : Dict α) (h : alookup m₁ k = some v) : alookup (m₁ ++ m₂) k = some v := by
  induction m₁ with
  | nil => simp [alookup] at h
  | cons p rest ih =>
      obtain ⟨k₀, v₀⟩ := p
      by_cases hk : k₀ = k <;> simp_all [alookup]

theorem alookup_append_none {α : Type} {m₁ : Dict α} {k : String}
    (m₂ : Dict α) (h : alookup m₁ k = none) : alookup (m₁ ++ m₂) k = alookup m₂ k := by
  induction m₁ with
  | nil => simp [alookup]
  | cons p rest ih =>
      obtain ⟨k₀, v₀⟩ := p
      by_cases hk : k₀ = k <;> simp_all [alookup]

theorem alookup_bump (m : Dict Nat) (k k' : String) :
    alookup (bump m k) k' =
      if k = k' then some ((alookup m k).getD 0 + 1) else alookup m k' := by
  simp [bump, alookup_aset]

theorem alookup_foldl_bump (occs : List String) (m : Dict Nat) (k : String) :
    alookup (occs.foldl bump m) k =
      match alookup m k with
      | some v => some (v + occs.count k)
      | none => if occs.count k = 0 then none else some (occs.count k) := by
  induction occs generalizing m with
  | nil => cases h : alookup m k <;> simp [h]
  | cons a rest ih =>
      simp only [List.foldl_cons, ih, alookup_bump]
      by_cases ha : a = k
      · subst ha
        cases h : alookup m a <;>
          simp [h, List.count_cons] <;> omega
      · cases h : alookup m k <;>
          simp [h, List.count_cons, ha, if_neg, Ne.symm ha]

theorem nodup_dkeys_foldl_bump (occs : List String) (m : Dict Nat)
    (h : (dkeys m).Nodup) : (dkeys (occs.foldl bump m)).Nodup := by
  induction occs generalizing m with
  | nil => exact h
  | cons a rest ih => exact ih _ (nodup_dkeys_aset _ _ _ h)

/-! ### From the mutable build loop to a direct description -/

theorem foldl_occs_eq_flatten (occs : Item → List String) (items : List Item)
    (m : Dict Nat) :
    items.foldl (fun m it => (occs it).foldl bump m) m =
      ((items.map occs).flatten).foldl bump m := by
  induction items generalizing m with
  | nil => rfl
  | cons it rest ih => simp [List.foldl_append, ih]

theorem alookup_localTally (occs : Item → List String) (items : List Item)
    (k : String) :
    alookup (localTally occs items) k =
      if dayCount occs items k = 0 then none else some (dayCount occs items k) := by
  unfold localTally dayCount
  rw [foldl_occs_eq_flatten, alookup_foldl_bump]
  simp [alookup]

theorem nodup_dkeys_localTally (occs : Item → List String) (items : List Item) :
    (dkeys (localTally occs items)).Nodup := by
  unfold localTally
  rw [foldl_occs_eq_flatten]
  exact nodup_dkeys_foldl_bump _ _ (by simp [dkeys])

theorem alookup_setDay_self (n di : Nat) (m : Dict (List Nat)) (k : String)
    (v : Nat) :
    alookup (setDay n di m k v) k =
      match alookup m k with
      | some s => some (s.set di v)
      | none => some ((List.replicate n 0).set di v) := by
  unfold setDay
  cases h : alookup m k with
  | some s => simp [alookup_aset]
  | none => rw [alookup_append_none _ h]; simp [alookup]

theorem alookup_setDay_ne (n di : Nat) (m : Dict (List Nat)) (k k' : String)
    (v : Nat) (h : k ≠ k') :
    alookup (setDay n di m k v) k' = alookup m k' := by
  unfold setDay
  cases hm : alookup m k with
  | some s => simp [alookup_aset, h]
  | none =>
      cases hm' : alookup m k' with
      | some s' => rw [alookup_append_some _ hm']
      | none => rw [alookup_append_none _ hm']; simp [alookup, h, hm']

theorem alookup_buildStep (n di : Nat) (m : Dict (List Nat)) (loc : Dict Nat)
    (hnd : (dkeys loc).Nodup) (k : String) :
    alookup (buildStep n di m loc) k =
      match alookup loc k with
      | none => alookup m k
      | some v =>
        match alookup m k with
        | some s => some (s.set di v)
        | none => some ((List.replicate n 0).set di v) := by
  induction loc generalizing m with
  | nil => simp [buildStep, alookup]
  | cons p rest ih =>
      obtain ⟨k₀, v₀⟩ := p
      rw [show buildStep n di m ((k₀, v₀) :: rest) =
        buildStep n di (setDay n di m k₀ v₀) rest from rfl]
      rw [dkeys_cons, List.nodup_cons] at hnd
      rw [ih _ hnd.2]
      by_cases h : k₀ = k
      · subst h
        have hrest : alookup rest k₀ = none := (alookup_eq_none_iff _ _).mpr hnd.1
        rw [hrest, alookup_setDay_self]
        simp [alookup]
      · rw [alookup_setDay_ne _ _ _ _ _ _ h]
        simp [alookup, h]

theorem set_len_append (l₁ l₂ : List Nat) (c x : Nat) (i : Nat)
    (h : i = l₁.length) : (l₁ ++ x :: l₂).set i c = l₁ ++ c :: l₂ := by
  subst h
  rw [List.set_append_right _ _ (Nat.le_refl _)]
  simp

theorem alookup_buildSeriesAux (occs : Item → List String) (n : Nat)
    (rest : List (List Item)) :
    ∀ (processed : List (List Item)) (m : Dict (List Nat)),
      n = processed.length + rest.length →
      (∀ k, alookup m k =
        if processed.all (fun items => decide (dayCount occs items k = 0)) then none
        else some ((processed.map (fun items => dayCount occs items k)) ++
          List.replicate rest.length 0)) →
      ∀ k, alookup (buildSeriesAux occs n processed.length m rest) k =
        if (processed ++ rest).all (fun items => decide (dayCount occs items k = 0))
        then none
        else some ((processed ++ rest).map fun items => dayCount occs items k) := by
  induction rest with
  | nil =>
      intro processed m hn hm k
      simpa [buildSeriesAux] using hm k
  | cons items rest' ih =>
      intro processed m hn hm k
      rw [show buildSeriesAux occs n processed.length m (items :: rest') =
        buildSeriesAux occs n (processed.length + 1)
          (buildStep n processed.length m (localTally occs items)) rest' from rfl]
      have hm' : ∀ k', alookup
          (buildStep n processed.length m (localTally occs items)) k' =
          if (processed ++ [items]).all
              (fun its => decide (dayCount occs its k' = 0)) then none
          else some (((processed ++ [items]).map
              fun its => dayCount occs its k') ++ List.replicate rest'.length 0) := by
        intro k'
        rw [alookup_buildStep _ _ _ _ (nodup_dkeys_localTally occs items) k',
            alookup_localTally]
        by_cases hc : dayCount occs items k' = 0
        · rw [if_pos hc, hm k']
          by_cases hall :
              processed.all (fun its => decide (dayCount occs its k' = 0)) = true
          · simp [hall, hc]
          · rw [Bool.not_eq_true] at hall
            have hfalse : ((processed ++ [items]).all
                (fun its => decide (dayCount occs its k' = 0))) = false := by
              simp [List.all_append, hall]
            simp [hall, hfalse, List.replicate_succ, hc]
        · rw [if_neg hc, hm k']
          have hfalse : ((processed ++ [items]).all
              (fun its => decide (dayCount occs its k' = 0))) = false := by
            simp [List.all_append, hc]
          by_cases hall :
              processed.all (fun its => decide (dayCount occs its k' = 0)) = true
          · have hz : processed.map (fun its => dayCount occs its k') =
                List.replicate processed.length 0 := by
              rw [List.eq_replicate_iff]
              refine ⟨by simp, ?_⟩
              intro b hb
              obtain ⟨its, hits, hval⟩ := List.mem_map.mp hb
              have := List.all_eq_true.mp hall its hits
              simp only [decide_eq_true_eq] at this
              omega
            rw [if_pos hall]
            have hn2 : n = processed.length + (rest'.length + 1) := by
              simp only [List.length_cons] at hn
              omega
            have hsplit : List.replicate n (0 : Nat) =
                List.replicate processed.length 0 ++
                  (0 :: List.replicate rest'.length 0) := by
              rw [hn2, List.replicate_add, List.replicate_succ]
            dsimp only
            rw [hsplit, set_len_append _ _ _ _ _ (by simp), hfalse]
            simp only [Bool.false_eq_true, if_neg, not_false_iff]
            rw [List.map_append]
            simp [hz, hc]
          · rw [if_neg hall]
            dsimp only
            simp only [List.length_cons, List.replicate_succ]
            rw [set_len_append _ _ _ _ _ (by simp), hfalse]
            simp only [Bool.false_eq_true, if_neg, not_false_iff]
            rw [List.map_append]
            simp
      have := ih (processed ++ [items])
        (buildStep n processed.length m (localTally occs items))
        (by simp at hn ⊢; omega) hm' k
      simpa [List.append_assoc] using this

/-- The central correspondence: the series dict built by the imperative
loop maps every key occurring somewhere in the window to its per-day
occurrence-count series, and omits keys that never occur. -/
theorem alookup_buildSeries (occs : Item → List String)
    (snaps : List (List Item)) (k : String) :
    alookup (buildSeries occs snaps) k =
      if snaps.all (fun items => decide (dayCount occs items k = 0)) then none
      else some (snaps.map fun items => dayCount occs items k) := by
  have := alookup_buildSeriesAux occs snaps.length snaps [] []
    (by simp) (by intro k'; simp [alookup]) k
  simpa [buildSeries] using this

/-- Helper: an observed key's series entry at day `di` is that day's
occurrence count. -/
theorem buildSeries_entry (occs : Item → List String) (snaps : List (List Item))
    (k : String) (s : List Nat) (di : Nat)
    (hs : alookup (buildSeries occs snaps) k = some s) (hdi : di < snaps.length) :
    s.getD di 0 = dayCount occs (snaps.getD di []) k := by
  rw [alookup_buildSeries] at hs
  by_cases hall : (snaps.all fun items => decide (dayCount occs items k = 0)) = true
  · rw [if_pos hall] at hs
    cases hs
  · rw [if_neg hall] at hs
    have hsEq : s = snaps.map (fun items => dayCount occs items k) :=
      (Option.some.inj hs).symm
    subst hsEq
    rw [List.getD_eq_getElem _ _ (by simpa using hdi), List.getElem_map,
      List.getD_eq_getElem _ _ hdi]

/-- Helper: an observed key's series has the full window length. -/
theorem buildSeries_length (occs : Item → List String) (snaps : List (List Item))
    (k : String) (s : List Nat)
    (hs : alookup (buildSeries occs snaps) k = some s) :
    s.length = snaps.length := by
  rw [alookup_buildSeries] at hs
  by_cases hall : (snaps.all fun items => decide (dayCount occs items k = 0)) = true
  · rw [if_pos hall] at hs
    cases hs
  · rw [if_neg hall] at hs
    have hsEq : s = snaps.map (fun items => dayCount occs items k) :=
      (Option.some.inj hs).symm
    subst hsEq
    simp

/-- The per-day entity tally the claim describes: the number of items of the
day whose normalized entity list contains the key, each item counted at
most once. -/
def itemsCarrying (items : List Item) (k : String) : Nat :=
  (items.filter (fun it => decide (k ∈ entityOccs it))).length

/-- C1 counterexample input: one day, one item listing the entity "A" twice. -/
def c1snaps : List (List Item) := [[{ entities := ["A", "A"] }]]

example : itemsCarrying (c1snaps.getD 0 []) "A" = 1 := by decide
example : alookup (entSeries c1snaps) "A" = some [2] := by decide

/-- C1, counterexample: the claim says an item listing the same entity
string twice contributes exactly 1 to that entity's tally for the day; in
the code it contributes one tally *per occurrence*.  On a day with a single
item whose entity list is `["A", "A"]`, the built series for "A" is `[2]`,
while the number of items carrying "A" that day is 1. -/
theorem C1_duplicate_entity_counted_twice :
    alookup (entSeries c1snaps) "A" = some [2] ∧
    itemsCarrying (c1snaps.getD 0 []) "A" = 1 ∧ (2 : Nat) ≠ 1 :=
  ⟨by decide, by decide, by decide⟩

/-- C1, amended: for every day in the window and every entity key of the
series dict, the entity's tally for that day equals the number of
*occurrences* of that entity string (stripped, blank entries dropped)
across the day's items, counted with multiplicity — an item listing the
same entity string twice contributes 2. -/
theorem C1_entity_tally_counts_occurrences
    (snaps : List (List Item)) (k : String) (s : List Nat) (di : Nat)
    (hs : alookup (entSeries snaps) k = some s) (hdi : di < snaps.length) :
    s.getD di 0 = dayCount entityOccs (snaps.getD di []) k :=
  buildSeries_entry entityOccs snaps k s di hs hdi

/-- Witness for `C1_entity_tally_counts_occurrences` at the duplicate-entity
input. -/
theorem C1_entity_tally_counts_occurrences_witness :
    ([2] : List Nat).getD 0 0 = dayCount entityOccs (c1snaps.getD 0 []) "A" :=
  C1_entity_tally_counts_occurrences c1snaps "A" [2] 0 (by decide) (by decide)

/-- C2: the claim (and the spec's stated intent, mirrored by the source-key
path `(... or "unknown").strip() or "unknown"` one line below) is that a
blank `primary` falls back to "misc".  The code computes
`(it.get("primary") or "misc").strip()`, so a whitespace-only `primary`
survives the `or` and then strips to the *empty string*: the item is
tallied under the key `""`, and no "misc" key is created. -/
theorem C2_blank_primary_yields_empty_key :
    catKey { primary := some " " } = "" ∧
    alookup (catSeries [[{ primary := some " " }]]) "" = some [1] ∧
    alookup (catSeries [[{ primary := some " " }]]) "misc" = none :=
  ⟨by decide, by decide, by decide⟩

/-- C8: in each of the three key spaces, every key observed on any day of
the window has a series of length exactly `N = snaps.length`, and its entry
is 0 on every day on which the key does not occur. -/
theorem C8_series_length_and_zero_fill (snaps : List (List Item)) (k : String) :
    (∀ s, alookup (entSeries snaps) k = some s →
      s.length = snaps.length ∧ ∀ di, di < snaps.length →
        dayCount entityOccs (snaps.getD di []) k = 0 → s.getD di 0 = 0) ∧
    (∀ s, alookup (catSeries snaps) k = some s →
      s.length = snaps.length ∧ ∀ di, di < snaps.length →
        dayCount (fun it => [catKey it]) (snaps.getD di []) k = 0 →
          s.getD di 0 = 0) ∧
    (∀ s, alookup (sourceSeries snaps) k = some s →
      s.length = snaps.length ∧ ∀ di, di < snaps.length →
        dayCount (fun it => [srcKey it]) (snaps.getD di []) k = 0 →
          s.getD di 0 = 0) := by
  refine ⟨fun s hs => ⟨buildSeries_length _ _ _ _ hs, fun di hdi hz => ?_⟩,
    fun s hs => ⟨buildSeries_length _ _ _ _ hs, fun di hdi hz => ?_⟩,
    fun s hs => ⟨buildSeries_length _ _ _ _ hs, fun di hdi hz => ?_⟩⟩ <;>
  · rw [buildSeries_entry _ _ _ _ _ hs hdi]
    exact hz

/-- C8 witness input: a window of two days in which the single first-day
item carries an entity, a category and a source, and the second day is
empty. -/
def c8snaps : List (List Item) :=
  [[{ primary := some "models", source := some "X Feed", entities := ["A"] }], []]

/-- Witness for `C8_series_length_and_zero_fill` on `c8snaps`. -/
theorem C8_series_length_and_zero_fill_witness :
    ([1, 0] : List Nat).length = 2 ∧ ([1, 0] : List Nat).getD 1 0 = 0 := by
  have h := (C8_series_length_and_zero_fill c8snaps "A").1 [1, 0] (by decide)
  exact ⟨h.1, h.2 1 (by decide) (by decide)⟩

/-- Helper: the series build depends on each day only through its local
tally dict. -/
theorem buildSeriesAux_congr (occs : Item → List String) (n : Nat) :
    ∀ (di : Nat) (m : Dict (List Nat)) (daysA daysB : List (List Item)),
      daysA.map (localTally occs) = daysB.map (localTally occs) →
      buildSeriesAux occs n di m daysA = buildSeriesAux occs n di m daysB := by
  intro di m daysA
  induction daysA generalizing di m with
  | nil =>
      intro daysB h
      cases daysB with
      | nil => rfl
      | cons b restB => simp at h
  | cons a restA ih =>
      intro daysB h
      cases daysB with
      | nil => simp at h
      | cons b restB =>
          simp only [List.map_cons, List.cons.injEq] at h
          rw [show buildSeriesAux occs n di m (a :: restA) =
            buildSeriesAux occs n (di + 1)
              (buildStep n di m (localTally occs a)) restA from rfl]
          rw [show buildSeriesAux occs n di m (b :: restB) =
            buildSeriesAux occs n (di + 1)
              (buildStep n di m (localTally occs b)) restB from rfl]
          rw [h.1]
          exact ih _ _ _ h.2

/-- C4 counterexample inputs: the same entity spelled with one vs. two
internal spaces, and an alias pair from `ENTITY_ALIASES`. -/
def c4snaps : List (List Item) :=
  [[{ entities := ["A  B"] }, { entities := ["A B"] }]]

/-- C4, counterexample: the Series Builder does *not* collapse internal
whitespace runs and does *not* apply the alias map: the spellings
`"A  B"`/`"A B"` stay two distinct keys with separate count series, and
`"USA"` is not merged into its alias target `"EEUU"`. -/
theorem C4_no_collapse_no_alias :
    alookup (entSeries c4snaps) "A  B" = some [1] ∧
    alookup (entSeries c4snaps) "A B" = some [1] ∧
    alookup (entSeries [[{ entities := ["USA"] }]]) "USA" = some [1] ∧
    alookup (entSeries [[{ entities := ["USA"] }]]) "EEUU" = none :=
  ⟨by decide, by decide, by decide, by decide⟩

/-- C4, amended: before aggregation entity keys are normalized only by
stripping leading/trailing whitespace (entries that strip to the empty
string are dropped): replacing one entity spelling anywhere in the window
by any other spelling with the same stripped form leaves the entire entity
series dict unchanged.  Internal whitespace runs are not collapsed and the
alias map is not applied, so spellings differing in those respects remain
distinct keys (see `C4_no_collapse_no_alias`). -/
theorem C4_strip_equivalent_spellings_merge
    (e₁ e₂ : String) (h : pyStrip e₁ = pyStrip e₂)
    (p so : Option String) (pre post : List String)
    (prevDays laterDays : List (List Item)) (preIts postIts : List Item) :
    entSeries (prevDays ++
      (preIts ++ { primary := p, source := so, entities := pre ++ e₁ :: post }
        :: postIts) :: laterDays) =
    entSeries (prevDays ++
      (preIts ++ { primary := p, source := so, entities := pre ++ e₂ :: post }
        :: postIts) :: laterDays) := by
  have hocc : entityOccs { primary := p, source := so, entities := pre ++ e₁ :: post } =
      entityOccs { primary := p, source := so, entities := pre ++ e₂ :: post } := by
    simp only [entityOccs, List.filter_append, List.filter_cons, h,
      List.map_append]
    by_cases hb : decide (pyStrip e₂ ≠ "") = true
    · simp [hb, h]
    · simp [hb]
  have hloc : localTally entityOccs (preIts ++
        { primary := p, source := so, entities := pre ++ e₁ :: post } :: postIts) =
      localTally entityOccs (preIts ++
        { primary := p, source := so, entities := pre ++ e₂ :: post } :: postIts) := by
    unfold localTally
    rw [foldl_occs_eq_flatten, foldl_occs_eq_flatten]
    simp only [List.map_append, List.map_cons, hocc]
  have hlen : (prevDays ++
      (preIts ++ { primary := p, source := so, entities := pre ++ e₁ :: post }
        :: postIts) :: laterDays).length =
      (prevDays ++
      (preIts ++ { primary := p, source := so, entities := pre ++ e₂ :: post }
        :: postIts) :: laterDays).length := by
    simp
  unfold entSeries buildSeries
  rw [← hlen]
  exact buildSeriesAux_congr entityOccs _ 0 [] _ _ (by
    simp only [List.map_append, List.map_cons, hloc])

/-- Witness for `C4_strip_equivalent_spellings_merge`: `" A"` and `"A "`
strip to the same key, so either spelling produces the same series dict. -/
theorem C4_strip_equivalent_spellings_merge_witness :
    entSeries [[{ primary := none, source := none, entities := [" A"] }]] =
    entSeries [[{ primary := none, source := none, entities := ["A "] }]] :=
  C4_strip_equivalent_spellings_merge " A" "A " (by decide)
    none none [] [] [] [] [] []

/-! ### Properties of the lexicographic sort orders -/

theorem lexLe2_refl (x : ℚ × ℚ) : lexLe2 x x := Or.inr ⟨rfl, le_refl _⟩

theorem lexLe3_refl (x : ℚ × ℚ × ℚ) : lexLe3 x x := Or.inr ⟨rfl, lexLe2_refl _⟩

theorem lexLe4_refl (x : ℚ × ℚ × ℚ × ℚ) : lexLe4 x x := Or.inr ⟨rfl, lexLe3_refl _⟩

theorem lexLe2_trans (x y z : ℚ × ℚ) (hxy : lexLe2 x y) (hyz : lexLe2 y z) :
    lexLe2 x z := by
  rcases hxy with h | ⟨he, h2⟩ <;> rcases hyz with h' | ⟨he', h2'⟩
  · exact Or.inl (lt_trans h h')
  · exact Or.inl (he' ▸ h)
  · exact Or.inl (he ▸ h')
  · exact Or.inr ⟨he.trans he', le_trans h2 h2'⟩

theorem lexLe3_trans (x y z : ℚ × ℚ × ℚ) (hxy : lexLe3 x y) (hyz : lexLe3 y z) :
    lexLe3 x z := by
  rcases hxy with h | ⟨he, h2⟩ <;> rcases hyz with h' | ⟨he', h2'⟩
  · exact Or.inl (lt_trans h h')
  · exact Or.inl (he' ▸ h)
  · exact Or.inl (he ▸ h')
  · exact Or.inr ⟨he.trans he', lexLe2_trans _ _ _ h2 h2'⟩

theorem lexLe4_trans (x y z : ℚ × ℚ × ℚ × ℚ) (hxy : lexLe4 x y)
    (hyz : lexLe4 y z) : lexLe4 x z := by
  rcases hxy with h | ⟨he, h2⟩ <;> rcases hyz with h' | ⟨he', h2'⟩
  · exact Or.inl (lt_trans h h')
  · exact Or.inl (he' ▸ h)
  · exact Or.inl (he ▸ h')
  · exact Or.inr ⟨he.trans he', lexLe3_trans _ _ _ h2 h2'⟩

theorem lexLe2_total (x y : ℚ × ℚ) : lexLe2 x y ∨ lexLe2 y x := by
  rcases lt_trichotomy x.1 y.1 with h | h | h
  · exact Or.inl (Or.inl h)
  · rcases le_total x.2 y.2 with h2 | h2
    · exact Or.inl (Or.inr ⟨h, h2⟩)
    · exact Or.inr (Or.inr ⟨h.symm, h2⟩)
  · exact Or.inr (Or.inl h)

theorem lexLe3_total (x y : ℚ × ℚ × ℚ) : lexLe3 x y ∨ lexLe3 y x := by
  rcases lt_trichotomy x.1 y.1 with h | h | h
  · exact Or.inl (Or.inl h)
  · rcases lexLe2_total x.2 y.2 with h2 | h2
    · exact Or.inl (Or.inr ⟨h, h2⟩)
    · exact Or.inr (Or.inr ⟨h.symm, h2⟩)
  · exact Or.inr (Or.inl h)

theorem lexLe4_total (x y : ℚ × ℚ × ℚ × ℚ) : lexLe4 x y ∨ lexLe4 y x := by
  rcases lt_trichotomy x.1 y.1 with h | h | h
  · exact Or.inl (Or.inl h)
  · rcases lexLe3_total x.2 y.2 with h2 | h2
    · exact Or.inl (Or.inr ⟨h, h2⟩)
    · exact Or.inr (Or.inr ⟨h.symm, h2⟩)
  · exact Or.inr (Or.inl h)

theorem pySort4_sorted {α : Type} (f : α → ℚ × ℚ × ℚ × ℚ) (l : List α) :
    (pySort4 f l).Sorted (descRel4 f) := by
  haveI : IsTotal α (descRel4 f) :=
    ⟨fun a b => (lexLe4_total (f b) (f a)).elim Or.inl Or.inr⟩
  haveI : IsTrans α (descRel4 f) :=
    ⟨fun a b c hab hbc => lexLe4_trans _ _ _ hbc hab⟩
  exact List.sorted_insertionSort _ _

theorem pySort3_sorted {α : Type} (f : α → ℚ × ℚ × ℚ) (l : List α) :
    (pySort3 f l).Sorted (descRel3 f) := by
  haveI : IsTotal α (descRel3 f) :=
    ⟨fun a b => (lexLe3_total (f b) (f a)).elim Or.inl Or.inr⟩
  haveI : IsTrans α (descRel3 f) :=
    ⟨fun a b c hab hbc => lexLe3_trans _ _ _ hbc hab⟩
  exact List.sorted_insertionSort _ _

theorem pySort4_perm {α : Type} (f : α → ℚ × ℚ × ℚ × ℚ) (l : List α) :
    (pySort4 f l).Perm l := List.perm_insertionSort _ _

theorem pySort3_perm {α : Type} (f : α → ℚ × ℚ × ℚ) (l : List α) :
    (pySort3 f l).Perm l := List.perm_insertionSort _ _

theorem pySort4_stable {α : Type} (f : α → ℚ × ℚ × ℚ × ℚ) {l : List α}
    {a b : α} (hab : f a = f b) (h : [a, b].Sublist l) :
    [a, b].Sublist (pySort4 f l) := by
  refine List.pair_sublist_insertionSort ?_ h
  show lexLe4 (f b) (f a)
  rw [hab]
  exact lexLe4_refl _

theorem pySort3_stable {α : Type} (f : α → ℚ × ℚ × ℚ) {l : List α}
    {a b : α} (hab : f a = f b) (h : [a, b].Sublist l) :
    [a, b].Sublist (pySort3 f l) := by
  refine List.pair_sublist_insertionSort ?_ h
  show lexLe3 (f b) (f a)
  rw [hab]
  exact lexLe3_refl _

/-- C3 counterexample input: one day, one item whose entity list mentions
"b" before "a", so the dict inserts "b" first; both keys get the identical
series `[1]` and hence identical ranking tuples. -/
def c3snaps : List (List Item) := [[{ entities := ["b", "a"] }]]

/-- C3, counterexample: with equal ranking tuples the claim demands the
lexicographically smaller name "a" first, but the code's stable sort keeps
the dict insertion order, ranking "b" before "a". -/
theorem C3_residual_ties_not_broken_by_name :
    (rankEnt [1] c3snaps).map Row.name = ["b", "a"] ∧
    entRankKey (mkRow [1] "b" [1]) = entRankKey (mkRow [1] "a" [1]) ∧
    "a".data < "b".data :=
  ⟨by decide, by decide, by decide⟩

/-- C3, amended: each of the three multi-criterion rankings (entity,
category, source) sorts descending by its full tuple and breaks residual
ties by *insertion order* (first-observation order of the underlying dict):
the sort is stable, so two rows with equal tuples keep their relative order
from the unsorted row list.  No key-name comparison is appended. -/
theorem C3_rankings_sorted_and_stable (ws : List ℚ) (snaps : List (List Item)) :
    ((rankEnt ws snaps).Sorted (descRel4 entRankKey) ∧
      (rankEnt ws snaps).Perm (entRows ws snaps) ∧
      ∀ a b : Row, [a, b].Sublist (entRows ws snaps) →
        entRankKey a = entRankKey b → [a, b].Sublist (rankEnt ws snaps)) ∧
    ((rankCat ws snaps).Sorted (descRel4 catRankKey) ∧
      (rankCat ws snaps).Perm (catRows ws snaps) ∧
      ∀ a b : CatRow, [a, b].Sublist (catRows ws snaps) →
        catRankKey a = catRankKey b → [a, b].Sublist (rankCat ws snaps)) ∧
    ((rankSrc ws snaps).Sorted (descRel3 srcRankKey) ∧
      (rankSrc ws snaps).Perm (srcRows ws snaps) ∧
      ∀ a b : SrcRow, [a, b].Sublist (srcRows ws snaps) →
        srcRankKey a = srcRankKey b → [a, b].Sublist (rankSrc ws snaps)) :=
  ⟨⟨pySort4_sorted _ _, pySort4_perm _ _,
      fun _ _ hsub hkey => pySort4_stable _ hkey hsub⟩,
    ⟨pySort4_sorted _ _, pySort4_perm _ _,
      fun _ _ hsub hkey => pySort4_stable _ hkey hsub⟩,
    ⟨pySort3_sorted _ _, pySort3_perm _ _,
      fun _ _ hsub hkey => pySort3_stable _ hkey hsub⟩⟩

/-- Witness for `C3_rankings_sorted_and_stable` on the two-equal-rows
input: the pair ("b" row, "a" row) survives the sort in insertion order. -/
theorem C3_rankings_sorted_and_stable_witness :
    [mkRow [1] "b" [1], mkRow [1] "a" [1]].Sublist (rankEnt [1] c3snaps) := by
  have h := (C3_rankings_sorted_and_stable [1] c3snaps).1.2.2
    (mkRow [1] "b" [1]) (mkRow [1] "a" [1])
  refine h ?_ (by decide)
  have he : entRows [1] c3snaps = [mkRow [1] "b" [1], mkRow [1] "a" [1]] := by
    decide
  rw [he]

/-! ### Index sums for the anomaly detector -/

theorem sum_take_eq_sum_range (s : List Nat) (m : Nat) (hm : m ≤ s.length) :
    (s.take m).sum = ∑ i in Finset.range m, s.getD i 0 := by
  induction s generalizing m with
  | nil =>
      simp only [List.length_nil, Nat.le_zero] at hm
      subst hm
      simp
  | cons a t ih =>
      cases m with
      | zero => simp
      | succ m' =>
          rw [List.take_succ_cons, List.sum_cons, Finset.sum_range_succ']
          simp only [List.getD_cons_succ, List.getD_cons_zero]
          rw [ih m' (by simpa using hm)]
          exact Nat.add_comm _ _

theorem sum_drop_eq_sum_Ico (s : List Nat) (m : Nat) (hm : m ≤ s.length) :
    (s.drop m).sum = ∑ i in Finset.Ico m s.length, s.getD i 0 := by
  have h1 : (s.take m).sum + (s.drop m).sum = s.sum := by
    rw [← List.sum_append, List.take_append_drop]
  have h2 : s.sum = ∑ i in Finset.range s.length, s.getD i 0 := by
    have := sum_take_eq_sum_range s s.length (le_refl _)
    simpa using this
  have h3 : (∑ i in Finset.range m, s.getD i 0) +
      ∑ i in Finset.Ico m s.length, s.getD i 0 =
      ∑ i in Finset.range s.length, s.getD i 0 := by
    rw [Finset.range_eq_Ico]
    exact Finset.sum_Ico_consecutive _ (Nat.zero_le _) hm
  have h4 := sum_take_eq_sum_range s m hm
  omega

/-- C5: with `k = min(3, N)`, an entity qualifies as new entrant iff the sum
of `c_0..c_{N-k-1}` is 0 and the sum of `c_{N-k}..c_{N-1}` is positive; an
entity with `c_{N-k-1} > 0` (a day index that exists, i.e. `N ≥ k+1`) never
qualifies; and the new-entrant list is sorted descending by
`(w_total, last, delta)`, capped at 8 entries, all of which qualify. -/
theorem C5_new_entrant_rule (snaps : List (List Item)) (ws : List ℚ) :
    (∀ s : List Nat, s.length = snaps.length →
      (newEntQual snaps.length s = true ↔
        (∑ i in Finset.range (snaps.length - min 3 snaps.length),
          s.getD i 0) = 0 ∧
        0 < ∑ i in Finset.Ico (snaps.length - min 3 snaps.length) snaps.length,
          s.getD i 0)) ∧
    (∀ s : List Nat, s.length = snaps.length →
      min 3 snaps.length + 1 ≤ snaps.length →
      0 < s.getD (snaps.length - min 3 snaps.length - 1) 0 →
      newEntQual snaps.length s = false) ∧
    (newEntrantList ws snaps).Sorted (descRel3 newEntKey) ∧
    (newEntrantList ws snaps).length ≤ 8 ∧
    (∀ r ∈ newEntrantList ws snaps, newEntQual snaps.length r.series = true) := by
  have hiff : ∀ s : List Nat, s.length = snaps.length →
      (newEntQual snaps.length s = true ↔
        (∑ i in Finset.range (snaps.length - min 3 snaps.length),
          s.getD i 0) = 0 ∧
        0 < ∑ i in Finset.Ico (snaps.length - min 3 snaps.length) snaps.length,
          s.getD i 0) := by
    intro s hlen
    unfold newEntQual
    rw [Bool.and_eq_true, beq_iff_eq, decide_eq_true_eq]
    rw [sum_take_eq_sum_range s _ (by omega)]
    rw [sum_drop_eq_sum_Ico s _ (by omega)]
    rw [hlen]
  refine ⟨hiff, ?_, ?_, ?_, ?_⟩
  · intro s hlen hk hpos
    by_contra hq
    rw [Bool.not_eq_false] at hq
    obtain ⟨hzero, -⟩ := (hiff s hlen).mp hq
    have hmem : snaps.length - min 3 snaps.length - 1 ∈
        Finset.range (snaps.length - min 3 snaps.length) := by
      rw [Finset.mem_range]
      omega
    have := Finset.sum_eq_zero_iff.mp hzero _ hmem
    omega
  · exact (pySort3_sorted _ _).sublist (List.take_sublist _ _)
  · exact List.length_take_le _ _
  · intro r hr
    have hr1 : r ∈ pySort3 newEntKey
        ((rankEnt ws snaps).filter
          (fun r => newEntQual snaps.length r.series)) :=
      List.mem_of_mem_take hr
    have hr2 := (pySort3_perm _ _).mem_iff.mp hr1
    exact (List.mem_filter.mp hr2).2

/-- Witness for `C5_new_entrant_rule` at a five-day window: Scenario E's
series `[0,0,0,0,2]` qualifies, and a series with presence on day
`N-k-1 = 1` does not. -/
theorem C5_new_entrant_rule_witness :
    newEntQual 5 [0, 0, 0, 0, 2] = true ∧
    newEntQual 5 [0, 1, 0, 0, 2] = false := by
  have h := C5_new_entrant_rule (List.replicate 5 []) [1]
  constructor
  · exact (h.1 [0, 0, 0, 0, 2] (by decide)).mpr ⟨by decide, by decide⟩
  · exact h.2.1 [0, 1, 0, 0, 2] (by decide) (by decide) (by decide)

/-- C6: for windows with `N ≥ 2`, an entity is a breakout iff its last-day
count is at least 2 and the mean of all prior days is at most 0.5 (the
boundary is inclusive: prior `[1, 0]` qualifies with a last day of 2, prior
mean 0.6 does not); the breakout list is sorted descending by
`(last, w_total, delta)`, capped at 8 entries, all of which qualify. -/
theorem C6_breakout_rule (snaps : List (List Item)) (ws : List ℚ) :
    (∀ s : List Nat, 2 ≤ s.length →
      (breakoutQual s = true ↔ 2 ≤ s.getLastD 0 ∧
        (s.dropLast.sum : ℚ) / ((s.length - 1 : Nat) : ℚ) ≤ 1 / 2)) ∧
    breakoutQual [1, 0, 2] = true ∧
    breakoutQual [1, 1, 1, 0, 0, 2] = false ∧
    (breakoutList ws snaps).Sorted (descRel3 breakoutKey) ∧
    (breakoutList ws snaps).length ≤ 8 ∧
    (∀ r ∈ breakoutList ws snaps, breakoutQual r.series = true) := by
  refine ⟨?_, by decide, by decide, ?_, ?_, ?_⟩
  · intro s hlen
    unfold breakoutQual
    have hne : s.isEmpty = false := by
      cases s
      · simp at hlen
      · simp
    have hmax : max 1 (s.length - 1) = s.length - 1 := by omega
    rw [hne, hmax]
    simp [Bool.and_eq_true, decide_eq_true_eq]
  · exact (pySort3_sorted _ _).sublist (List.take_sublist _ _)
  · exact List.length_take_le _ _
  · intro r hr
    have hr1 : r ∈ pySort3 breakoutKey
        ((rankEnt ws snaps).filter (fun r => breakoutQual r.series)) :=
      List.mem_of_mem_take hr
    have hr2 := (pySort3_perm _ _).mem_iff.mp hr1
    exact (List.mem_filter.mp hr2).2

/-- Witness for `C6_breakout_rule`: the boundary series `[1, 0, 2]` (prior
mean exactly 0.5) satisfies the characterization. -/
theorem C6_breakout_rule_witness :
    2 ≤ ([1, 0, 2] : List Nat).getLastD 0 ∧
    ((([1, 0, 2] : List Nat).dropLast.sum : ℚ) /
      ((([1, 0, 2] : List Nat).length - 1 : Nat) : ℚ)) ≤ 1 / 2 :=
  ((C6_breakout_rule [] []).1 [1, 0, 2] (by decide)).mp (by decide)

/-- C10: for a window of length 1 the breakout prior-mean is computed with
denominator `max(1, N-1) = 1` over an empty prior sum, hence is 0, so a
single-day series is flagged as breakout exactly when its only count is at
least 2 — despite there being no prior history at all. -/
theorem C10_single_day_window_breakout :
    (∀ c : Nat, breakoutQual [c] = true ↔ 2 ≤ c) ∧
    (∀ c : Nat, ((([c] : List Nat).dropLast.sum : ℚ) /
      ((max 1 (([c] : List Nat).length - 1) : Nat) : ℚ)) = 0) := by
  constructor
  · intro c
    unfold breakoutQual
    simp
  · intro c
    simp

/-! ### Concentration analyzer: mathematics of the HHI -/

theorem list_sum_sq_le_sq_sum (l : List ℚ) (h : ∀ v ∈ l, 0 ≤ v) :
    (l.map (fun v => v ^ 2)).sum ≤ l.sum ^ 2 := by
  induction l with
  | nil => simp
  | cons a t ih =>
      simp only [List.map_cons, List.sum_cons]
      have ha : 0 ≤ a := h a (by simp)
      have ht : ∀ v ∈ t, 0 ≤ v := fun v hv => h v (by simp [hv])
      have hts : 0 ≤ t.sum := List.sum_nonneg ht
      have hih := ih ht
      nlinarith [hih, ha, hts]

theorem list_sum_eq_zero_of_nonneg (l : List ℚ) (h : ∀ v ∈ l, 0 ≤ v)
    (hz : l.sum = 0) : ∀ v ∈ l, v = 0 := by
  induction l with
  | nil => simp
  | cons a t ih =>
      have ha : 0 ≤ a := h a (by simp)
      have ht : ∀ v ∈ t, 0 ≤ v := fun v hv => h v (by simp [hv])
      have hts : 0 ≤ t.sum := List.sum_nonneg ht
      rw [List.sum_cons] at hz
      have ha0 : a = 0 := by linarith
      have hts0 : t.sum = 0 := by linarith
      intro v hv
      rcases List.mem_cons.mp hv with rfl | hv'
      · exact ha0
      · exact ih ht hts0 v hv'

theorem list_sum_sq_eq_sq_sum_iff (l : List ℚ) (h : ∀ v ∈ l, 0 ≤ v) :
    (l.map (fun v => v ^ 2)).sum = l.sum ^ 2 ↔
      (l.filter (fun v => decide (v ≠ 0))).length ≤ 1 := by
  induction l with
  | nil => simp
  | cons a t ih =>
      have ha : 0 ≤ a := h a (by simp)
      have ht : ∀ v ∈ t, 0 ≤ v := fun v hv => h v (by simp [hv])
      have hts : 0 ≤ t.sum := List.sum_nonneg ht
      have hsq := list_sum_sq_le_sq_sum t ht
      simp only [List.map_cons, List.sum_cons, List.filter_cons]
      by_cases haz : a = 0
      · subst haz
        rw [if_neg (by simp : ¬((decide ((0 : ℚ) ≠ 0)) = true))]
        rw [show ((0 : ℚ)) ^ 2 = 0 from by norm_num, zero_add, zero_add]
        exact ih ht
      · rw [if_pos (by simp [haz] : (decide (a ≠ 0)) = true)]
        simp only [List.length_cons]
        constructor
        · intro heq
          have h2 : a * t.sum = 0 ∧ (t.map (fun v => v ^ 2)).sum = t.sum ^ 2 := by
            constructor <;> nlinarith [heq, hsq, ha, hts]
          have hts0 : t.sum = 0 := by
            rcases mul_eq_zero.mp h2.1 with h' | h'
            · exact absurd h' haz
            · exact h'
          have hall := list_sum_eq_zero_of_nonneg t ht hts0
          have hfil : t.filter (fun v => decide (v ≠ 0)) = [] := by
            rw [List.filter_eq_nil_iff]
            intro v hv
            simp [hall v hv]
          rw [hfil]
          simp
        · intro hlen
          have hfil : t.filter (fun v => decide (v ≠ 0)) = [] :=
            List.length_eq_zero.mp (by omega)
          have hall : ∀ v ∈ t, v = 0 := by
            intro v hv
            by_contra hvz
            have hmem : v ∈ t.filter (fun v => decide (v ≠ 0)) :=
              List.mem_filter.mpr ⟨hv, by simp [hvz]⟩
            rw [hfil] at hmem
            simp at hmem
          have hts0 : t.sum = 0 := List.sum_eq_zero hall
          have hsq0 : (t.map (fun v => v ^ 2)).sum = 0 := by
            apply List.sum_eq_zero
            intro x hx
            obtain ⟨v, hv, rfl⟩ := List.mem_map.mp hx
            rw [hall v hv]
            ring
          rw [hts0, hsq0]
          ring

theorem sum_map_div_sq (l : List ℚ) (t : ℚ) :
    (l.map (fun v => (v / t) ^ 2)).sum = (l.map (fun v => v ^ 2)).sum / t ^ 2 := by
  induction l with
  | nil => simp
  | cons a rest ih =>
      rw [List.map_cons, List.sum_cons, ih, List.map_cons, List.sum_cons,
        div_pow, add_div]

/-- C7: with non-negative weighted totals, the concentration analyzer
satisfies the claimed contract: degenerate mass gives `HHI = 0` and
`top_n_share = 0`; positive mass gives `HHI ∈ [0, 1]`, `HHI = 1/k` for `k`
equal positive values, `HHI = 1` exactly when a single key carries all the
mass, and `top_share` is the sum of the `n` largest values (every selected
value dominates every unselected one) over the total. -/
theorem C7_concentration (counts : Dict ℚ)
    (hpos : ∀ v ∈ counts.map Prod.snd, 0 ≤ v) :
    ((counts.map Prod.snd).sum ≤ 0 →
      hhi_from_counts counts = 0 ∧ top_share counts 3 = 0) ∧
    (0 < (counts.map Prod.snd).sum →
      0 ≤ hhi_from_counts counts ∧ hhi_from_counts counts ≤ 1) ∧
    (∀ (kk : Nat) (v : ℚ), 0 < v → 0 < kk →
      counts.map Prod.snd = List.replicate kk v →
      hhi_from_counts counts = 1 / kk) ∧
    (0 < (counts.map Prod.snd).sum →
      (hhi_from_counts counts = 1 ↔
        ((counts.map Prod.snd).filter (fun v => decide (v ≠ 0))).length = 1)) ∧
    (∀ nn : Nat, 0 < (counts.map Prod.snd).sum →
      top_share counts nn =
        ((((counts.map Prod.snd).insertionSort (fun a b => b ≤ a)).take nn).sum /
          (counts.map Prod.snd).sum) ∧
      ∀ x ∈ (((counts.map Prod.snd).insertionSort (fun a b => b ≤ a)).take nn),
        ∀ y ∈ (((counts.map Prod.snd).insertionSort (fun a b => b ≤ a)).drop nn),
          y ≤ x) := by
  refine ⟨?_, ?_, ?_, ?_, ?_⟩
  · intro hle
    constructor
    · simp only [hhi_from_counts]
      rw [if_pos hle]
    · simp only [top_share]
      rw [if_pos hle]
  · intro hS
    constructor
    · simp only [hhi_from_counts]
      rw [if_neg (not_le.mpr hS)]
      apply List.sum_nonneg
      intro x hx
      obtain ⟨v, hv, rfl⟩ := List.mem_map.mp hx
      positivity
    · simp only [hhi_from_counts]
      rw [if_neg (not_le.mpr hS), sum_map_div_sq]
      rw [div_le_one (by positivity)]
      exact list_sum_sq_le_sq_sum _ hpos
  · intro kk v hv0 hk hrep
    simp only [hhi_from_counts]
    rw [hrep]
    have hsum : (List.replicate kk v).sum = (kk : ℚ) * v := by
      rw [List.sum_replicate, nsmul_eq_mul]
    rw [hsum]
    have hkQ : (0 : ℚ) < kk := by exact_mod_cast hk
    have hS : (0 : ℚ) < (kk : ℚ) * v := mul_pos hkQ hv0
    rw [if_neg (not_le.mpr hS), List.map_replicate, List.sum_replicate,
      nsmul_eq_mul]
    have hkne : (kk : ℚ) ≠ 0 := ne_of_gt hkQ
    have hvne : v ≠ 0 := ne_of_gt hv0
    field_simp
    ring
  · intro hS
    simp only [hhi_from_counts]
    rw [if_neg (not_le.mpr hS), sum_map_div_sq]
    have hS2 : ((counts.map Prod.snd).sum) ^ 2 ≠ 0 := pow_ne_zero _ (ne_of_gt hS)
    rw [div_eq_iff hS2, one_mul, list_sum_sq_eq_sq_sum_iff _ hpos]
    constructor
    · intro hle
      have hne : ((counts.map Prod.snd).filter
          (fun v => decide (v ≠ 0))).length ≠ 0 := by
        intro h0
        have hfil := List.length_eq_zero.mp h0
        have hall : ∀ v ∈ counts.map Prod.snd, v = 0 := by
          intro v hv
          by_contra hvz
          have hmem : v ∈ (counts.map Prod.snd).filter
              (fun v => decide (v ≠ 0)) :=
            List.mem_filter.mpr ⟨hv, by simp [hvz]⟩
          rw [hfil] at hmem
          simp at hmem
        rw [List.sum_eq_zero hall] at hS
        exact lt_irrefl _ hS
      omega
    · omega
  · intro nn hS
    constructor
    · simp only [top_share]
      rw [if_neg (not_le.mpr hS)]
    · intro x hx y hy
      haveI : IsTotal ℚ (fun a b : ℚ => b ≤ a) := ⟨fun a b => le_total b a⟩
      haveI : IsTrans ℚ (fun a b : ℚ => b ≤ a) :=
        ⟨fun _ _ _ hab hbc => le_trans hbc hab⟩
      have hsorted := List.sorted_insertionSort (fun a b : ℚ => b ≤ a)
        (counts.map Prod.snd)
      rw [← List.take_append_drop nn
        ((counts.map Prod.snd).insertionSort (fun a b => b ≤ a))] at hsorted
      exact (List.pairwise_append.mp hsorted).2.2 x hx y hy

/-- Witness for `C7_concentration` at Scenario C's weighted totals
`{"A": 10, "B": 10}`: `HHI = 1/2` and lies in `[0, 1]`. -/
theorem C7_concentration_witness :
    hhi_from_counts [("A", 10), ("B", 10)] = 1 / ((2 : Nat) : ℚ) ∧
    0 ≤ hhi_from_counts [("A", 10), ("B", 10)] ∧
    hhi_from_counts [("A", 10), ("B", 10)] ≤ 1 := by
  have h := C7_concentration [("A", 10), ("B", 10)] (by decide)
  exact ⟨h.2.2.1 2 10 (by decide) (by decide) (by decide), h.2.1 (by decide)⟩

/-- C9: a window with no snapshots (`N = 0`) is not an error: the pipeline
(total on every input, so no exception path exists in the model) returns
the explicit no-data report whose ranked lists are all empty. -/
theorem C9_empty_window_yields_no_data (ws : List ℚ) :
    (runWeekly ws []).noData = true ∧
    (runWeekly ws []).entRanked = [] ∧
    (runWeekly ws []).catRanked = [] ∧
    (runWeekly ws []).srcRanked = [] ∧
    (runWeekly ws []).newEntrants = [] ∧
    (runWeekly ws []).breakouts = [] := by
  simp [runWeekly]
